import Mathlib

/-!
Verification of the word-lookup tool (a Streamlit web page in `app.py` and a
console program in `dictionary.py`, both backed by the NLTK WordNet database
with an optional WordsAPI fallback).

The lexical database and the remote API are external collaborators; they are
modelled abstractly as an environment `Env` containing the synset map, the
optional API credential, and the remote response map.  Python sets (used for
synonyms, antonyms, examples and POS tags) are modelled as duplicate-free
lists in insertion order via `insertS`; this preserves membership and
duplicate-freeness, and makes the source expression `list(someSet)[:3]`
the deterministic `List.take 3` of that insertion order.
-/

/-- A lemma record of a WordNet synset: `lemma.name()` and the names of
`lemma.antonyms()` (each antonym is itself a lemma; only its name is used
by the source, via `antonym.name()`). -/
structure WNLemma where
  name : String
  antonyms : List String
deriving DecidableEq, Repr

/-- A WordNet synset as used by the source: `synset.pos()`,
`synset.definition()`, `synset.examples()`, `synset.lemmas()`. -/
structure Synset where
  pos : String
  definition : String
  examples : List String
  lemmas : List WNLemma
deriving DecidableEq, Repr

/-- One definition entry of the aggregated record:
`{'text': ..., 'pos': ...}` (app.py lines 412-415 and 359-362). -/
structure DefEntry where
  text : String
  pos : String
deriving DecidableEq, Repr

/-- The aggregated word record built by `get_word_data` / `get_word_from_api`
(the `data` dictionary of app.py).  The local path never sets a `source`
key, the API path sets `source = 'WordsAPI'`; this is modelled with
`source : Option String`, `none` meaning the key is absent. -/
structure WordData where
  word : String
  definitions : List DefEntry
  synonyms : List String
  antonyms : List String
  examples : List String
  pos_tags : List String
  source : Option String
deriving DecidableEq, Repr

/-- A definition object inside an API meaning: `defn.get('definition', '')`. -/
structure ApiDefn where
  definition : Option String
deriving DecidableEq, Repr

/-- One element of the `meanings` array of a WordsAPI response.
`partOfSpeech` is optional (`meaning.get('partOfSpeech', 'unknown')`);
an absent list field is identified with the empty list, which the
source treats identically (the `if 'definitions' in meaning` guards). -/
structure ApiMeaning where
  partOfSpeech : Option String
  definitions : List ApiDefn
  synonyms : List String
  antonyms : List String
  examples : List String
deriving DecidableEq, Repr

/-- A parsed 200-response body of the WordsAPI endpoint. -/
structure ApiResponse where
  meanings : List ApiMeaning
deriving DecidableEq, Repr

/-- The external world of both programs: the WordNet synset map
(`wordnet.synsets`), the optional credential (`os.getenv('WORDS_API_KEY')`),
and the remote endpoint.  `api w = none` covers every soft-miss of the
source: non-200 status, network failure, or parse failure. -/
structure Env where
  synsets : String → List Synset
  apiKey : Option String
  api : String → Option ApiResponse

/-- Model of the Python method `str.lower` (ASCII case folding), working on
the character list so that it evaluates inside the kernel. -/
def pyLower (s : String) : String := String.mk (s.data.map Char.toLower)

/-- Model of the Python method `str.strip` with no argument: remove leading
and trailing whitespace. -/
def pyStrip (s : String) : String :=
  String.mk (((s.data.dropWhile Char.isWhitespace).reverse.dropWhile
    Char.isWhitespace).reverse)

/-- The input normalization `word.lower().strip()`
(app.py line 390, dictionary.py line 6). -/
def normalizeWord (s : String) : String := pyStrip (pyLower s)

/-- Model of the Python expression `s.replace('_', ' ')`: the pattern is a
single character, so this is a character map. -/
def underscoreToSpace (s : String) : String :=
  String.mk (s.data.map (fun c => if c = '_' then ' ' else c))

/-- Insertion into a Python set, modelled as a duplicate-free list in
insertion order: `s.add(x)` / one step of `s.update(xs)`. -/
def insertS (xs : List String) (x : String) : List String :=
  if x ∈ xs then xs else xs ++ [x]

/-- Model of `list(set(xs))` with first-occurrence order:
deduplication of a list built by set insertion (app.py line 377). -/
def dedupFirst (xs : List String) : List String :=
  xs.foldl insertS []

/-- One iteration of the `for meaning in api_data['meanings']` loop of
`get_word_from_api` (app.py lines 353-374): append the POS tag, extend
the definitions with `{'text': defn.get('definition',''), 'pos': pos}`,
update the synonym and antonym sets, and extend the examples list with
at most 2 examples of this meaning. -/
def apiMeaningStep (d : WordData) (m : ApiMeaning) : WordData :=
  let pos := m.partOfSpeech.getD "unknown"
  { d with
    pos_tags := d.pos_tags ++ [pos]
    definitions := d.definitions ++
      m.definitions.map (fun dd => { text := dd.definition.getD "", pos := pos })
    synonyms := m.synonyms.foldl insertS d.synonyms
    antonyms := m.antonyms.foldl insertS d.antonyms
    examples := d.examples ++ m.examples.take 2 }

/-- Function `get_word_from_api` (app.py lines 323-382): `None` when no API key is
configured, when the request fails or returns non-200, or when the
aggregated definitions list is empty; otherwise the aggregated record with
`source = 'WordsAPI'` and examples deduplicated
(`list(set(data['examples']))[:3]`) and capped at 3. -/
def get_word_from_api (env : Env) (word : String) : Option WordData :=
  match env.apiKey with
  | none => none
  | some _ =>
    match env.api word with
    | none => none
    | some resp =>
      let d := resp.meanings.foldl apiMeaningStep
        { word := word, definitions := [], synonyms := [], antonyms := [],
          examples := [], pos_tags := [], source := some "WordsAPI" }
      let d := { d with examples := (dedupFirst d.examples).take 3 }
      if d.definitions = [] then none else some d

/-- The body of the `for antonym in lemma.antonyms()` loop
(app.py lines 434-435). -/
def antonymStep (d : WordData) (a : String) : WordData :=
  { d with antonyms := insertS d.antonyms (underscoreToSpace a) }

/-- The body of the `for lemma in synset.lemmas()` loop of `get_word_data`
(app.py lines 426-435): add the underscore-replaced lemma name as a synonym
unless it equals the (normalized) word, then add all its antonym names. -/
def processLemma (word : String) (d : WordData) (lem : WNLemma) : WordData :=
  let lemmaName := underscoreToSpace lem.name
  let d := if lemmaName ≠ word
    then { d with synonyms := insertS d.synonyms lemmaName } else d
  lem.antonyms.foldl antonymStep d

/-- The body of the `for synset in synsets` loop of `get_word_data`
(app.py lines 408-435): append the definition with its POS, add the POS
tag to the set, add all examples to the set, then process the lemmas. -/
def processSynset (word : String) (d : WordData) (syn : Synset) : WordData :=
  let d := { d with
    definitions := d.definitions ++ [{ text := syn.definition, pos := syn.pos }]
    pos_tags := insertS d.pos_tags syn.pos
    examples := syn.examples.foldl insertS d.examples }
  syn.lemmas.foldl (processLemma word) d

/-- The body of `get_word_data` after the normalization line
(app.py lines 391-441): `None` on empty word, API fallback when WordNet has
no synsets, otherwise the one-pass aggregation over all synsets with the
examples capped at 3 (`list(data['examples'])[:3]`). -/
def get_word_data_core (env : Env) (word : String) : Option WordData :=
  if word = "" then none
  else
    let synsets := env.synsets word
    if synsets = [] then get_word_from_api env word
    else
      let d := synsets.foldl (processSynset word)
        { word := word, definitions := [], synonyms := [], antonyms := [],
          examples := [], pos_tags := [], source := none }
      some { d with examples := d.examples.take 3 }

/-- Function `get_word_data` (app.py lines 385-441): normalize the input
(`word.lower().strip()`, line 390) and run the lookup body. -/
def get_word_data (env : Env) (word0 : String) : Option WordData :=
  get_word_data_core env (normalizeWord word0)

/-- The badge check of the page (app.py line 720):
`word_data.get('source') == 'WordsAPI'`.  A record is displayed as coming
from the local database exactly when this is `false`. -/
def is_from_wordsapi (d : WordData) : Bool :=
  d.source == some "WordsAPI"

/-- Function `add_to_history` (app.py lines 443-448): if the word is not already in
the history, insert it at the front and truncate to 5 entries; otherwise
the history is left unchanged. -/
def add_to_history (hist : List String) (word : String) : List String :=
  if word ∈ hist then hist else (word :: hist).take 5

/-- Function `pos_to_name` (app.py lines 450-459): the fixed code-to-name table,
defaulting to `Unknown`. -/
def pos_to_name (pos_code : String) : String :=
  if pos_code = "n" then "Noun"
  else if pos_code = "v" then "Verb"
  else if pos_code = "a" then "Adjective"
  else if pos_code = "r" then "Adverb"
  else if pos_code = "s" then "Adjective Satellite"
  else "Unknown"

/-- The per-definition POS labelling step of `format_output`
(app.py line 466) and of the page rendering (app.py line 730): each
definition entry is labelled `pos_to_name(defn['pos'])`. -/
def format_labels (d : WordData) : List String :=
  d.definitions.map (fun defn => pos_to_name defn.pos)

/-- The per-session state touched by the search handler of the page
(app.py lines 306-311 initialize `history`, `current_word`, and the
handler sets `search_triggered_by_enter`). -/
structure SessionState where
  history : List String
  current_word : Option String
  search_triggered_by_enter : Bool
deriving DecidableEq, Repr

/-- Function `handle_search_input` (app.py lines 665-671): trim the raw input; on a
non-empty value set the current word, mark the enter-trigger, and add the
raw trimmed value (not the lowercased one) to the history. -/
def handle_search_input (st : SessionState) (search_input : String) :
    SessionState :=
  let search_val := pyStrip search_input
  if search_val = "" then st
  else { history := add_to_history st.history search_val,
         current_word := some search_val,
         search_triggered_by_enter := true }

/-- The body of the `for lemma in synset.lemmas()` loop of the console
aggregation (dictionary.py lines 25-27): the exclusion check compares the
RAW lemma name to the word (`if lemma.name() != word`, line 26) while the
ADDED string is the underscore-replaced name (line 27). -/
def consoleLemmaStep (word : String) (s : List String) (lem : WNLemma) :
    List String :=
  if lem.name ≠ word then insertS s (underscoreToSpace lem.name) else s

/-- The body of the `for synset in synsets` loop of the console aggregation
(dictionary.py lines 19-27): append the definition, then collect synonyms
from the lemmas. -/
def consoleSynsetStep (word : String) (acc : List String × List String)
    (syn : Synset) : List String × List String :=
  (acc.1 ++ [syn.definition], syn.lemmas.foldl (consoleLemmaStep word) acc.2)

/-- The console aggregation `get_definitions_and_synonyms`
(dictionary.py lines 4-46), with its printing abstracted away: it returns
`none` when the normalized word has no synsets (the function prints an
error and returns `False`), otherwise the pair of the collected definition
list and the synonym set.  Note the exclusion check compares the RAW lemma
name to the word (`if lemma.name() != word`, line 26) while the ADDED
string is the underscore-replaced name (line 27). -/
def get_definitions_and_synonyms (env : Env) (word0 : String) :
    Option (List String × List String) :=
  let word := normalizeWord word0
  let synsets := env.synsets word
  if synsets = [] then none
  else
    some (synsets.foldl (consoleSynsetStep word) ([], []))

/-- One observable reaction of the console loop `main`
(dictionary.py lines 48-76). -/
inductive ConsoleAction where
  /-- Exit via `sys.exit(code)` after printing the farewell message. -/
  | exitProgram (code : Nat) (farewell : String)
  /-- print the message and continue the loop without a lookup. -/
  | reprompt (msg : String)
  /-- call `get_definitions_and_synonyms(word)` and print its results,
  then continue the loop. -/
  | lookupAndPrint (word : String)
deriving DecidableEq, Repr

/-- One input event of the console loop: a line typed at the prompt, or a
`KeyboardInterrupt`. -/
inductive ConsoleEvent where
  | line (s : String)
  | interrupt
deriving DecidableEq, Repr

/-- One iteration of the `while True` loop of `main`
(dictionary.py lines 55-74): strip the input; a case-insensitive
`quit`/`exit`/`q` exits with code 0 printing `Goodbye!`; empty input
re-prompts with `Please enter a word.`; anything else is looked up;
a `KeyboardInterrupt` exits with code 0 printing a farewell. -/
def console_step (ev : ConsoleEvent) : ConsoleAction :=
  match ev with
  | .interrupt => .exitProgram 0 "\n\nGoodbye!"
  | .line s =>
    let word := pyStrip s
    if pyLower word ∈ (["quit", "exit", "q"] : List String) then
      .exitProgram 0 "Goodbye!"
    else if word = "" then
      .reprompt "Please enter a word.\n"
    else
      .lookupAndPrint word

/-! Auxiliary per-field fold functions.  They are not part of the
embedding; each is proven equal to the corresponding field of the record
folds above, which lets the record-valued loops be reasoned about one
field at a time. -/

/-- The synonym contribution of one lemma in the page aggregation. -/
def synStep (word : String) (acc : List String) (lem : WNLemma) :
    List String :=
  if underscoreToSpace lem.name ≠ word
  then insertS acc (underscoreToSpace lem.name) else acc

/-- The antonym contribution of one lemma in the page aggregation. -/
def antStepL (acc : List String) (lem : WNLemma) : List String :=
  lem.antonyms.foldl (fun a n => insertS a (underscoreToSpace n)) acc

/-! Concrete environments used as witnesses and counterexamples. -/

/-- An environment with one local synset for `cat` and no credential. -/
def envCatLocal : Env where
  synsets := fun w =>
    if w = "cat" then
      [{ pos := "n", definition := "feline mammal",
         examples := ["the cat sat on the mat"],
         lemmas := [{ name := "cat", antonyms := [] },
                    { name := "true_cat", antonyms := [] }] }]
    else []
  apiKey := none
  api := fun _ => none

/-- An environment whose local database has an entry keyed by the
space-containing form `ice cream` whose lemma name carries an underscore. -/
def envIceCream : Env where
  synsets := fun w =>
    if w = "ice cream" then
      [{ pos := "n", definition := "frozen dessert", examples := [],
         lemmas := [{ name := "ice_cream", antonyms := [] }] }]
    else []
  apiKey := none
  api := fun _ => none

/-- An empty environment: no local entries, no credential, no remote data. -/
def envEmpty : Env where
  synsets := fun _ => []
  apiKey := none
  api := fun _ => none

/-- An environment with no local entries, a configured credential, and one
remote record for `cat`. -/
def envApiOnly : Env where
  synsets := fun _ => []
  apiKey := some "k"
  api := fun w =>
    if w = "cat" then
      some { meanings := [{ partOfSpeech := some "noun",
                            definitions := [{ definition := some "a feline" }],
                            synonyms := ["feline"], antonyms := [],
                            examples := ["the cat sat"] }] }
    else none

/-- An environment with one local synset for `dog` and no credential,
used to exercise the shared local path of both front ends. -/
def envDogLocal : Env where
  synsets := fun w =>
    if w = "dog" then
      [{ pos := "n", definition := "domestic canine",
         examples := ["the dog barked"],
         lemmas := [{ name := "dog", antonyms := [] },
                    { name := "domestic_dog", antonyms := [] }] },
       { pos := "v", definition := "go after with intent to catch",
         examples := [],
         lemmas := [{ name := "chase", antonyms := [] }] }]
    else []
  apiKey := none
  api := fun _ => none

/-- An environment whose remote API answers `run` with a meaning whose
`partOfSpeech` is the full word `noun` rather than a single-letter code;
the response body is the separately named `respNoun` below. -/
def envApiNoun : Env where
  synsets := fun _ => []
  apiKey := some "k"
  api := fun w =>
    if w = "run" then
      some { meanings := [{ partOfSpeech := some "noun",
                            definitions := [{ definition := some "move fast" }],
                            synonyms := [], antonyms := [], examples := [] }] }
    else none

/-- The record produced by the local path for `cat` in `envCatLocal`. -/
def catRecord : WordData where
  word := "cat"
  definitions := [{ text := "feline mammal", pos := "n" }]
  synonyms := ["true cat"]
  antonyms := []
  examples := ["the cat sat on the mat"]
  pos_tags := ["n"]
  source := none

/-- The remote response used by `envApiNoun`. -/
def respNoun : ApiResponse where
  meanings := [{ partOfSpeech := some "noun",
                 definitions := [{ definition := some "move fast" }],
                 synonyms := [], antonyms := [], examples := [] }]

/-- The record produced by the remote fallback for `run` in `envApiNoun`. -/
def runRecord : WordData where
  word := "run"
  definitions := [{ text := "move fast", pos := "noun" }]
  synonyms := []
  antonyms := []
  examples := []
  pos_tags := ["noun"]
  source := some "WordsAPI"

/-! ## Basic properties of the set-insertion model -/

theorem mem_insertS {xs : List String} {x y : String} :
    y ∈ insertS xs x ↔ y ∈ xs ∨ y = x := by
  unfold insertS
  split
  · next hx =>
    constructor
    · exact fun h => Or.inl h
    · rintro (h | rfl)
      · exact h
      · exact hx
  · simp

theorem nodup_insertS {xs : List String} (h : xs.Nodup) (x : String) :
    (insertS xs x).Nodup := by
  unfold insertS
  split
  · exact h
  · next hx =>
    refine List.Nodup.append h (List.nodup_singleton x) ?_
    intro a ha hax
    rw [List.mem_singleton] at hax
    subst hax
    exact hx ha

/-- A generic invariant lemma for left folds. -/
theorem foldl_preserves {α β : Type} {P : α → Prop} {f : α → β → α} :
    ∀ (xs : List β) (a : α),
      (∀ a b, b ∈ xs → P a → P (f a b)) → P a → P (xs.foldl f a)
  | [], _, _, ha => ha
  | x :: xs, a, h, ha => by
    simp only [List.foldl_cons]
    exact foldl_preserves xs (f a x)
      (fun a b hb => h a b (List.mem_cons_of_mem _ hb))
      (h a x (List.mem_cons_self _ _) ha)

theorem nodup_foldl_insertS (xs : List String) (acc : List String)
    (h : acc.Nodup) : (xs.foldl insertS acc).Nodup :=
  foldl_preserves xs acc (fun _ b _ ha => nodup_insertS ha b) h

/-- Membership soundness for folds that append a computed block per element. -/
theorem mem_foldl_append {β γ : Type} (g : β → List γ) :
    ∀ (xs : List β) (acc : List γ) (y : γ),
      y ∈ xs.foldl (fun acc x => acc ++ g x) acc →
      y ∈ acc ∨ ∃ x ∈ xs, y ∈ g x
  | [], _, _, h => Or.inl h
  | x :: xs, acc, y, h => by
    simp only [List.foldl_cons] at h
    rcases mem_foldl_append g xs (acc ++ g x) y h with h' | ⟨b, hb, hy⟩
    · rcases List.mem_append.mp h' with h'' | h''
      · exact Or.inl h''
      · exact Or.inr ⟨x, List.mem_cons_self _ _, h''⟩
    · exact Or.inr ⟨b, List.mem_cons_of_mem _ hb, hy⟩

/-! ## Field-wise characterization of the page aggregation loops -/

theorem foldl_antonymStep (as : List String) (d : WordData) :
    as.foldl antonymStep d =
      { d with antonyms :=
          as.foldl (fun acc a => insertS acc (underscoreToSpace a)) d.antonyms } := by
  induction as generalizing d with
  | nil => rfl
  | cons a as ih =>
    simp only [List.foldl_cons]
    rw [ih]
    rfl

theorem processLemma_eq (w : String) (d : WordData) (l : WNLemma) :
    processLemma w d l =
      { d with synonyms := synStep w d.synonyms l,
               antonyms := antStepL d.antonyms l } := by
  by_cases h : underscoreToSpace l.name ≠ w
  · simp only [processLemma, synStep, antStepL, if_pos h]
    rw [foldl_antonymStep]
  · simp only [processLemma, synStep, antStepL, if_neg h]
    rw [foldl_antonymStep]

theorem foldl_processLemma (w : String) (lems : List WNLemma) (d : WordData) :
    lems.foldl (processLemma w) d =
      { d with synonyms := lems.foldl (synStep w) d.synonyms,
               antonyms := lems.foldl antStepL d.antonyms } := by
  induction lems generalizing d with
  | nil => rfl
  | cons l ls ih =>
    simp only [List.foldl_cons]
    rw [processLemma_eq, ih]

theorem processSynset_eq (w : String) (d : WordData) (s : Synset) :
    processSynset w d s =
      { d with
        definitions := d.definitions ++ [{ text := s.definition, pos := s.pos }],
        pos_tags := insertS d.pos_tags s.pos,
        examples := s.examples.foldl insertS d.examples,
        synonyms := s.lemmas.foldl (synStep w) d.synonyms,
        antonyms := s.lemmas.foldl antStepL d.antonyms } := by
  unfold processSynset
  rw [foldl_processLemma]

theorem foldl_processSynset (w : String) (syns : List Synset) (d : WordData) :
    syns.foldl (processSynset w) d =
      { d with
        definitions := d.definitions ++
          syns.map (fun s => { text := s.definition, pos := s.pos }),
        pos_tags := syns.foldl (fun acc s => insertS acc s.pos) d.pos_tags,
        examples := syns.foldl
          (fun acc s => s.examples.foldl insertS acc) d.examples,
        synonyms := syns.foldl
          (fun acc s => s.lemmas.foldl (synStep w) acc) d.synonyms,
        antonyms := syns.foldl
          (fun acc s => s.lemmas.foldl antStepL acc) d.antonyms } := by
  induction syns generalizing d with
  | nil => simp
  | cons s ss ih =>
    simp only [List.foldl_cons, List.map_cons]
    rw [processSynset_eq, ih]
    simp

/-! ## Field-wise characterization of the API aggregation loop -/

theorem foldl_apiMeaningStep (ms : List ApiMeaning) (d : WordData) :
    ms.foldl apiMeaningStep d =
      { d with
        pos_tags := ms.foldl
          (fun acc m => acc ++ [m.partOfSpeech.getD "unknown"]) d.pos_tags,
        definitions := ms.foldl (fun acc m => acc ++
          m.definitions.map (fun dd =>
            { text := dd.definition.getD "",
              pos := m.partOfSpeech.getD "unknown" })) d.definitions,
        synonyms := ms.foldl
          (fun acc m => m.synonyms.foldl insertS acc) d.synonyms,
        antonyms := ms.foldl
          (fun acc m => m.antonyms.foldl insertS acc) d.antonyms,
        examples := ms.foldl
          (fun acc m => acc ++ m.examples.take 2) d.examples } := by
  induction ms generalizing d with
  | nil => rfl
  | cons m ms ih =>
    simp only [List.foldl_cons]
    rw [ih]
    rfl

/-! ## Membership soundness of the synonym folds -/

theorem mem_foldl_synStep (w : String) :
    ∀ (lems : List WNLemma) (acc : List String) (y : String),
      y ∈ lems.foldl (synStep w) acc →
      y ∈ acc ∨ ∃ lem ∈ lems,
        y = underscoreToSpace lem.name ∧ underscoreToSpace lem.name ≠ w
  | [], _, _, h => Or.inl h
  | l :: ls, acc, y, h => by
    simp only [List.foldl_cons] at h
    rcases mem_foldl_synStep w ls (synStep w acc l) y h with h' | ⟨b, hb, hy⟩
    · unfold synStep at h'
      split at h'
      · next hc =>
        rcases mem_insertS.mp h' with h'' | rfl
        · exact Or.inl h''
        · exact Or.inr ⟨l, List.mem_cons_self _ _, rfl, hc⟩
      · exact Or.inl h'
    · exact Or.inr ⟨b, List.mem_cons_of_mem _ hb, hy⟩

theorem mem_foldl_syn_synsets (w : String) :
    ∀ (syns : List Synset) (acc : List String) (y : String),
      y ∈ syns.foldl (fun acc s => s.lemmas.foldl (synStep w) acc) acc →
      y ∈ acc ∨ ∃ s ∈ syns, ∃ lem ∈ s.lemmas,
        y = underscoreToSpace lem.name ∧ underscoreToSpace lem.name ≠ w
  | [], _, _, h => Or.inl h
  | s :: ss, acc, y, h => by
    simp only [List.foldl_cons] at h
    rcases mem_foldl_syn_synsets w ss (s.lemmas.foldl (synStep w) acc) y h with
      h' | ⟨s', hs', hy⟩
    · rcases mem_foldl_synStep w s.lemmas acc y h' with h'' | ⟨l, hl, hy⟩
      · exact Or.inl h''
      · exact Or.inr ⟨s, List.mem_cons_self _ _, l, hl, hy⟩
    · exact Or.inr ⟨s', List.mem_cons_of_mem _ hs', hy⟩

theorem mem_foldl_consoleLemmaStep (w : String) :
    ∀ (lems : List WNLemma) (acc : List String) (y : String),
      y ∈ lems.foldl (consoleLemmaStep w) acc →
      y ∈ acc ∨ ∃ lem ∈ lems, y = underscoreToSpace lem.name ∧ lem.name ≠ w
  | [], _, _, h => Or.inl h
  | l :: ls, acc, y, h => by
    simp only [List.foldl_cons] at h
    rcases mem_foldl_consoleLemmaStep w ls (consoleLemmaStep w acc l) y h with
      h' | ⟨b, hb, hy⟩
    · unfold consoleLemmaStep at h'
      split at h'
      · next hc =>
        rcases mem_insertS.mp h' with h'' | rfl
        · exact Or.inl h''
        · exact Or.inr ⟨l, List.mem_cons_self _ _, rfl, hc⟩
      · exact Or.inl h'
    · exact Or.inr ⟨b, List.mem_cons_of_mem _ hb, hy⟩

theorem mem_foldl_console_synsets (w : String) :
    ∀ (syns : List Synset) (acc : List String) (y : String),
      y ∈ syns.foldl (fun acc s => s.lemmas.foldl (consoleLemmaStep w) acc) acc →
      y ∈ acc ∨ ∃ s ∈ syns, ∃ lem ∈ s.lemmas,
        y = underscoreToSpace lem.name ∧ lem.name ≠ w
  | [], _, _, h => Or.inl h
  | s :: ss, acc, y, h => by
    simp only [List.foldl_cons] at h
    rcases mem_foldl_console_synsets w ss
        (s.lemmas.foldl (consoleLemmaStep w) acc) y h with h' | ⟨s', hs', hy⟩
    · rcases mem_foldl_consoleLemmaStep w s.lemmas acc y h' with h'' | ⟨l, hl, hy⟩
      · exact Or.inl h''
      · exact Or.inr ⟨s, List.mem_cons_self _ _, l, hl, hy⟩
    · exact Or.inr ⟨s', List.mem_cons_of_mem _ hs', hy⟩

/-! ## Duplicate-freeness of the synonym and antonym folds -/

theorem nodup_synStep (w : String) {acc : List String} (h : acc.Nodup)
    (l : WNLemma) : (synStep w acc l).Nodup := by
  unfold synStep
  split
  · exact nodup_insertS h _
  · exact h

theorem nodup_antStepL {acc : List String} (h : acc.Nodup) (l : WNLemma) :
    (antStepL acc l).Nodup :=
  foldl_preserves l.antonyms acc (fun _ _ _ ha => nodup_insertS ha _) h

theorem nodup_consoleLemmaStep (w : String) {acc : List String}
    (h : acc.Nodup) (l : WNLemma) : (consoleLemmaStep w acc l).Nodup := by
  unfold consoleLemmaStep
  split
  · exact nodup_insertS h _
  · exact h

/-! ## Characterization of the console aggregation loop -/

theorem foldl_consoleSynsetStep (w : String) :
    ∀ (syns : List Synset) (acc : List String × List String),
      syns.foldl (consoleSynsetStep w) acc =
        (acc.1 ++ syns.map (fun s => s.definition),
         syns.foldl
           (fun sy s => s.lemmas.foldl (consoleLemmaStep w) sy) acc.2)
  | [], acc => by simp
  | s :: ss, acc => by
    simp only [List.foldl_cons, List.map_cons]
    rw [foldl_consoleSynsetStep w ss]
    simp [consoleSynsetStep]

/-! ## Claim theorems -/

/-- C1: for every word with at least one entry in the local lexical
database (and that is an actual word, i.e. non-empty after normalization),
`get_word_data` returns a record whose source is local — it carries no
`source` key (`source = none`), so the page badge check
`word_data.get('source') == 'WordsAPI'` is false — and whose definitions
list is non-empty. -/
theorem C1_local_lookup (env : Env) (w0 : String)
    (hw : normalizeWord w0 ≠ "") (hs : env.synsets (normalizeWord w0) ≠ []) :
    ∃ d, get_word_data env w0 = some d ∧ d.source = none ∧
      is_from_wordsapi d = false ∧ d.definitions ≠ [] := by
  simp only [get_word_data, get_word_data_core]
  rw [if_neg hw, if_neg hs]
  refine ⟨_, rfl, ?_, ?_, ?_⟩
  · rw [foldl_processSynset]
  · rw [foldl_processSynset]
    rfl
  · rw [foldl_processSynset]
    simp only [List.nil_append]
    intro hnil
    exact hs (List.map_eq_nil_iff.mp hnil)

/-- Witness for C1 at the concrete environment `envCatLocal`. -/
theorem C1_local_lookup_witness :
    ∃ d, get_word_data envCatLocal "Cat" = some d ∧ d.source = none ∧
      is_from_wordsapi d = false ∧ d.definitions ≠ [] :=
  C1_local_lookup envCatLocal "Cat" (by decide) (by decide)

/-- C5: with zero local entries and no configured credential, the lookup
returns `None` (NotFound), and the skipped remote fallback itself returns
`None` rather than raising an error. -/
theorem C5_notfound_without_credential (env : Env) (w0 : String)
    (hk : env.apiKey = none) (hs : env.synsets (normalizeWord w0) = []) :
    get_word_data env w0 = none ∧
      get_word_from_api env (normalizeWord w0) = none := by
  have hapi : get_word_from_api env (normalizeWord w0) = none := by
    unfold get_word_from_api
    rw [hk]
  refine ⟨?_, hapi⟩
  simp only [get_word_data, get_word_data_core]
  by_cases hw : normalizeWord w0 = ""
  · rw [if_pos hw]
  · rw [if_neg hw, if_pos hs]
    exact hapi

/-- Witness for C5 at the concrete environment `envEmpty`. -/
theorem C5_notfound_without_credential_witness :
    get_word_data envEmpty "zzzqqqnonword" = none ∧
      get_word_from_api envEmpty (normalizeWord "zzzqqqnonword") = none :=
  C5_notfound_without_credential envEmpty "zzzqqqnonword" rfl rfl

/-- Every record produced by the remote fallback has at most 3 examples
and duplicate-free synonym and antonym collections. -/
theorem api_record_invariants (env : Env) (w : String) (d : WordData)
    (h : get_word_from_api env w = some d) :
    d.examples.length ≤ 3 ∧ d.synonyms.Nodup ∧ d.antonyms.Nodup := by
  simp only [get_word_from_api] at h
  cases hk : env.apiKey with
  | none => simp [hk] at h
  | some k =>
    simp only [hk] at h
    cases hr : env.api w with
    | none => simp [hr] at h
    | some resp =>
      simp only [hr] at h
      split at h
      · exact Option.noConfusion h
      · injection h with h
        subst h
        refine ⟨List.length_take_le 3 _, ?_, ?_⟩
        · rw [foldl_apiMeaningStep]
          exact foldl_preserves _ _
            (fun a m _ ha =>
              foldl_preserves _ _ (fun a' b _ ha' => nodup_insertS ha' b) ha)
            List.nodup_nil
        · rw [foldl_apiMeaningStep]
          exact foldl_preserves _ _
            (fun a m _ ha =>
              foldl_preserves _ _ (fun a' b _ ha' => nodup_insertS ha' b) ha)
            List.nodup_nil

/-- C7: every record returned by the lookup, whether from the local path
or the remote fallback, has at most 3 examples and duplicate-free
synonyms and antonyms. -/
theorem C7_record_invariants (env : Env) (w0 : String) (d : WordData)
    (h : get_word_data env w0 = some d) :
    d.examples.length ≤ 3 ∧ d.synonyms.Nodup ∧ d.antonyms.Nodup := by
  simp only [get_word_data, get_word_data_core] at h
  by_cases hw : normalizeWord w0 = ""
  · rw [if_pos hw] at h
    exact Option.noConfusion h
  · rw [if_neg hw] at h
    by_cases hs : env.synsets (normalizeWord w0) = []
    · rw [if_pos hs] at h
      exact api_record_invariants env _ d h
    · rw [if_neg hs] at h
      injection h with h
      subst h
      refine ⟨List.length_take_le 3 _, ?_, ?_⟩
      · rw [foldl_processSynset]
        exact foldl_preserves _ _
          (fun a s _ ha =>
            foldl_preserves _ _ (fun a' l _ ha' => nodup_synStep _ ha' l) ha)
          List.nodup_nil
      · rw [foldl_processSynset]
        exact foldl_preserves _ _
          (fun a s _ ha =>
            foldl_preserves _ _ (fun a' l _ ha' => nodup_antStepL ha' l) ha)
          List.nodup_nil

/-- Witness for C7 at the concrete environment `envCatLocal`. -/
theorem C7_record_invariants_witness :
    catRecord.examples.length ≤ 3 ∧ catRecord.synonyms.Nodup ∧
      catRecord.antonyms.Nodup :=
  C7_record_invariants envCatLocal "cat" catRecord (by decide)

/-- C2 counterexample: in the console front end the exclusion check
compares the RAW lemma name to the word before underscores are replaced,
so for the input `ice cream` and a database lemma named `ice_cream` the
returned synonym set is exactly the normalized input word itself. -/
theorem C2_counterexample :
    (get_definitions_and_synonyms envIceCream "ice cream").map Prod.snd =
        some ["ice cream"] ∧
      normalizeWord "ice cream" = "ice cream" := by decide

/-- C2 as amended: in the page front end, a local-path record never lists
the normalized input word among its synonyms, and every synonym is a
related lemma name with underscores replaced by spaces; in the console
front end every synonym is an underscore-replaced lemma name whose RAW
name differs from the word, which does not prevent the normalized word
itself from appearing (see the counterexample). -/
theorem C2_amended :
    (∀ (env : Env) (w0 : String) (d : WordData),
        env.synsets (normalizeWord w0) ≠ [] →
        get_word_data env w0 = some d →
        normalizeWord w0 ∉ d.synonyms ∧
        ∀ s ∈ d.synonyms, ∃ syn ∈ env.synsets (normalizeWord w0),
          ∃ lem ∈ syn.lemmas,
            s = underscoreToSpace lem.name ∧ s ≠ normalizeWord w0) ∧
    (∀ (env : Env) (w0 : String) (r : List String × List String),
        get_definitions_and_synonyms env w0 = some r →
        ∀ s ∈ r.2, ∃ syn ∈ env.synsets (normalizeWord w0),
          ∃ lem ∈ syn.lemmas,
            s = underscoreToSpace lem.name ∧ lem.name ≠ normalizeWord w0) := by
  constructor
  · intro env w0 d hs h
    simp only [get_word_data, get_word_data_core] at h
    by_cases hw : normalizeWord w0 = ""
    · rw [if_pos hw] at h
      exact Option.noConfusion h
    · rw [if_neg hw, if_neg hs] at h
      injection h with h
      subst h
      have hsyn :
          ({ (env.synsets (normalizeWord w0)).foldl
              (processSynset (normalizeWord w0))
              { word := normalizeWord w0, definitions := [], synonyms := [],
                antonyms := [], examples := [], pos_tags := [],
                source := none } with
            examples := ((env.synsets (normalizeWord w0)).foldl
              (processSynset (normalizeWord w0))
              { word := normalizeWord w0, definitions := [], synonyms := [],
                antonyms := [], examples := [], pos_tags := [],
                source := none }).examples.take 3 } : WordData).synonyms =
          (env.synsets (normalizeWord w0)).foldl
            (fun acc s => s.lemmas.foldl (synStep (normalizeWord w0)) acc)
            [] := by
        rw [foldl_processSynset]
      refine ⟨?_, ?_⟩
      · intro hmem
        rw [hsyn] at hmem
        rcases mem_foldl_syn_synsets _ _ _ _ hmem with
          h0 | ⟨syn, hsy, lem, hl, heq, hne⟩
        · exact absurd h0 (List.not_mem_nil _)
        · exact hne heq.symm
      · intro s hmem
        rw [hsyn] at hmem
        rcases mem_foldl_syn_synsets _ _ _ _ hmem with
          h0 | ⟨syn, hsy, lem, hl, heq, hne⟩
        · exact absurd h0 (List.not_mem_nil _)
        · refine ⟨syn, hsy, lem, hl, heq, ?_⟩
          rw [heq]
          exact hne
  · intro env w0 r h s hs'
    simp only [get_definitions_and_synonyms] at h
    by_cases hsy : env.synsets (normalizeWord w0) = []
    · rw [if_pos hsy] at h
      exact Option.noConfusion h
    · rw [if_neg hsy] at h
      injection h with h
      subst h
      rw [foldl_consoleSynsetStep] at hs'
      rcases mem_foldl_console_synsets _ _ _ _ hs' with
        h0 | ⟨syn, hsy2, lem, hl, heq, hne⟩
      · exact absurd h0 (List.not_mem_nil _)
      · exact ⟨syn, hsy2, lem, hl, heq, hne⟩

/-- Witness for C2 as amended, at the concrete environments `envCatLocal`
and `envIceCream`. -/
theorem C2_amended_witness :
    normalizeWord "cat" ∉ catRecord.synonyms ∧
      (∃ syn ∈ envIceCream.synsets (normalizeWord "ice cream"),
        ∃ lem ∈ syn.lemmas,
          "ice cream" = underscoreToSpace lem.name ∧
            lem.name ≠ normalizeWord "ice cream") :=
  ⟨(C2_amended.1 envCatLocal "cat" catRecord (by decide) (by decide)).1,
    C2_amended.2 envIceCream "ice cream" (["frozen dessert"], ["ice cream"])
      (by decide) "ice cream" (by decide)⟩

/-- C3 counterexample: an input that is empty after normalization yields
exactly the same lookup result (`None`) as a word with no local and no
remote data, so at the lookup level the empty-input case is NOT an error
distinct from NotFound. -/
theorem C3_counterexample :
    get_word_data envEmpty "   " = none ∧
      get_word_data envEmpty "zzzqqqnonword" = none ∧
      get_word_data envEmpty "   " = get_word_data envEmpty "zzzqqqnonword" := by
  decide

/-- C3 as amended: an input that is empty after normalization makes the
lookup return `None` without consulting either source; this `None` is the
same value as the NotFound result.  The empty-input case is distinguished
only by the front ends, before any lookup: the console loop re-prompts
with its own message, and the page handler ignores the submission. -/
theorem C3_amended :
    (∀ (env : Env) (w0 : String), normalizeWord w0 = "" →
        get_word_data env w0 = none) ∧
    (∀ s : String, pyStrip s = "" →
        console_step (.line s) = .reprompt "Please enter a word.\n") ∧
    (∀ (st : SessionState) (s : String), pyStrip s = "" →
        handle_search_input st s = st) := by
  refine ⟨?_, ?_, ?_⟩
  · intro env w0 hw
    simp only [get_word_data, get_word_data_core]
    rw [if_pos hw]
  · intro s hs
    simp only [console_step]
    rw [hs]
    decide
  · intro st s hs
    simp [handle_search_input, hs]

/-- Witness for C3 as amended at concrete empty-after-trim inputs. -/
theorem C3_amended_witness :
    get_word_data envEmpty "" = none ∧
      console_step (.line "  ") = .reprompt "Please enter a word.\n" ∧
      handle_search_input ⟨[], none, false⟩ " " = ⟨[], none, false⟩ :=
  ⟨C3_amended.1 envEmpty "" (by decide),
    C3_amended.2.1 "  " (by decide),
    C3_amended.2.2 ⟨[], none, false⟩ " " (by decide)⟩

/-- C4 counterexample: the two front ends do NOT perform the identical
lookup-and-format sequence.  With no local entries, a configured
credential, and remote data for `cat`, the page lookup succeeds through
the API fallback while the console lookup reports failure — the console
program has no remote fallback at all. -/
theorem C4_counterexample :
    (get_word_data envApiOnly "cat").isSome = true ∧
      get_definitions_and_synonyms envApiOnly "cat" = none := by decide

/-- C4 as amended: the front ends share only the local core — the same
normalization and the same in-order gloss collection — so whenever the
normalized word has local entries both lookups succeed and the console
definition list equals the text components of the page record
definitions.  They are not identical overall: the remote fallback,
antonyms, examples, POS tags and the synonym-exclusion check differ
(see the counterexample and the C2 theorems). -/
theorem C4_amended (env : Env) (w0 : String)
    (hw : normalizeWord w0 ≠ "") (hs : env.synsets (normalizeWord w0) ≠ []) :
    ∃ d r, get_word_data env w0 = some d ∧
      get_definitions_and_synonyms env w0 = some r ∧
      r.1 = d.definitions.map (fun e => e.text) := by
  simp only [get_word_data, get_word_data_core, get_definitions_and_synonyms]
  rw [if_neg hw, if_neg hs, if_neg hs]
  refine ⟨_, _, rfl, rfl, ?_⟩
  rw [foldl_processSynset, foldl_consoleSynsetStep]
  simp [List.map_map]

/-- Witness for C4 as amended at the concrete environment `envDogLocal`. -/
theorem C4_amended_witness :
    ∃ d r, get_word_data envDogLocal "dog" = some d ∧
      get_definitions_and_synonyms envDogLocal "dog" = some r ∧
      r.1 = d.definitions.map (fun e => e.text) :=
  C4_amended envDogLocal "dog" (by decide) (by decide)

/-- C6 counterexample: recording a word that is already present does NOT
move it to the front; after recording `a`, `b`, `a` the history is
`[b, a]`, whose head is not the most recently recorded word `a`. -/
theorem C6_counterexample :
    List.foldl add_to_history [] ["a", "b", "a"] = ["b", "a"] ∧
      (List.foldl add_to_history [] ["a", "b", "a"]).head? ≠ some "a" := by
  decide

/-- C6 as amended: starting from the empty history, any sequence of
`add_to_history` calls keeps the list at most 5 long and duplicate-free;
recording a word already present leaves the history entirely unchanged
(the word stays at its current position, it is not moved to the front);
recording an absent word inserts it at the front and truncates to 5, so a
6th distinct word drops the oldest entry. -/
theorem C6_amended :
    (∀ ws : List String, (ws.foldl add_to_history []).length ≤ 5 ∧
        (ws.foldl add_to_history []).Nodup) ∧
    (∀ (hist : List String) (w : String), w ∈ hist →
        add_to_history hist w = hist) ∧
    (∀ (hist : List String) (w : String), w ∉ hist →
        add_to_history hist w = (w :: hist).take 5) ∧
    (∀ (hist : List String) (w : String), hist.length = 5 → w ∉ hist →
        add_to_history hist w = w :: hist.dropLast) := by
  have hstep : ∀ (a : List String) (b : String),
      a.length ≤ 5 ∧ a.Nodup →
      (add_to_history a b).length ≤ 5 ∧ (add_to_history a b).Nodup := by
    intro a b ⟨hl, hn⟩
    unfold add_to_history
    split
    · exact ⟨hl, hn⟩
    · next hb =>
      refine ⟨List.length_take_le 5 _, ?_⟩
      exact List.Nodup.sublist (List.take_sublist 5 _)
        (List.nodup_cons.mpr ⟨hb, hn⟩)
  refine ⟨?_, ?_, ?_, ?_⟩
  · intro ws
    exact foldl_preserves ws [] (fun a b _ => hstep a b)
      ⟨by simp, List.nodup_nil⟩
  · intro hist w hw
    unfold add_to_history
    rw [if_pos hw]
  · intro hist w hw
    unfold add_to_history
    rw [if_neg hw]
  · intro hist w h5 hw
    unfold add_to_history
    rw [if_neg hw, List.take_succ_cons, List.dropLast_eq_take, h5]

/-- Witness for C6 as amended at concrete histories. -/
theorem C6_amended_witness :
    add_to_history ["b", "a"] "a" = ["b", "a"] ∧
      add_to_history ["e", "d", "c", "b", "a"] "f" =
        ["f", "e", "d", "c", "b"] := by
  constructor
  · exact C6_amended.2.1 ["b", "a"] "a" (by decide)
  · rw [C6_amended.2.2.2 ["e", "d", "c", "b", "a"] "f" (by decide) (by decide)]
    decide

/-- C8: in the console loop, a case-insensitive `quit`/`exit`/`q`
terminates with exit code 0 after printing `Goodbye!`; empty input
re-prompts without performing a lookup; any other input is looked up (and
its results printed) under its trimmed form; a keyboard interrupt
terminates with exit code 0 and a farewell message. -/
theorem C8_console_loop (s0 : String) :
    (pyLower (pyStrip s0) ∈ (["quit", "exit", "q"] : List String) →
        console_step (.line s0) = .exitProgram 0 "Goodbye!") ∧
    (pyStrip s0 = "" →
        console_step (.line s0) = .reprompt "Please enter a word.\n") ∧
    (pyLower (pyStrip s0) ∉ (["quit", "exit", "q"] : List String) →
        pyStrip s0 ≠ "" →
        console_step (.line s0) = .lookupAndPrint (pyStrip s0)) ∧
    console_step .interrupt = .exitProgram 0 "\n\nGoodbye!" := by
  refine ⟨?_, ?_, ?_, rfl⟩
  · intro hq
    simp only [console_step]
    rw [if_pos hq]
  · intro hs
    simp only [console_step]
    rw [hs]
    decide
  · intro hq hs
    simp only [console_step]
    rw [if_neg hq, if_neg hs]

/-- Witness for C8 at concrete console inputs. -/
theorem C8_console_loop_witness :
    console_step (.line " QUIT ") = .exitProgram 0 "Goodbye!" ∧
      console_step (.line "   ") = .reprompt "Please enter a word.\n" ∧
      console_step (.line " cat ") = .lookupAndPrint "cat" := by
  refine ⟨(C8_console_loop " QUIT ").1 (by decide),
    (C8_console_loop "   ").2.1 (by decide), ?_⟩
  exact ((C8_console_loop " cat ").2.2.1 (by decide) (by decide)).trans
    (by decide)

/-- The code-to-name table maps every string outside the five single
letter WordNet codes to `Unknown`. -/
theorem pos_to_name_default {p : String}
    (h : p ∉ (["n", "v", "a", "s", "r"] : List String)) :
    pos_to_name p = "Unknown" := by
  simp only [List.mem_cons, List.not_mem_nil, or_false, not_or] at h
  obtain ⟨h1, h2, h3, h4, h5⟩ := h
  unfold pos_to_name
  rw [if_neg h1, if_neg h2, if_neg h3, if_neg h5, if_neg h4]

/-- C9: when the remote API reports `partOfSpeech` strings that are not
among the single-letter WordNet codes `n`, `v`, `a`, `s`, `r` (for
example full words such as `noun` or `verb`), the formatter labels every
definition of the resulting record `Unknown`, because the code-to-name
table recognizes only the single-letter codes. -/
theorem C9_api_pos_unknown (env : Env) (w : String) (resp : ApiResponse)
    (hr : env.api w = some resp)
    (hpos : ∀ m ∈ resp.meanings,

        m.partOfSpeech.getD "unknown" ∉ (["n", "v", "a", "s", "r"] : List String))
    (d : WordData) (h : get_word_from_api env w = some d) :
    format_labels d = List.replicate d.definitions.length "Unknown" := by
  simp only [get_word_from_api] at h
  cases hk : env.apiKey with
  | none => simp [hk] at h
  | some k =>
    simp only [hk, hr] at h
    split at h
    · exact Option.noConfusion h
    · injection h with h
      subst h
      unfold format_labels
      rw [List.eq_replicate_iff]
      refine ⟨by simp, ?_⟩
      intro b hb
      rw [List.mem_map] at hb
      obtain ⟨e, he, rfl⟩ := hb
      rw [foldl_apiMeaningStep] at he
      rcases mem_foldl_append _ resp.meanings _ e he with h0 | ⟨m, hm, he'⟩
      · exact absurd h0 (List.not_mem_nil _)
      · rw [List.mem_map] at he'
        obtain ⟨dd, hdd, rfl⟩ := he'
        exact pos_to_name_default (hpos m hm)

/-- Witness for C9 at the concrete environment `envApiNoun`. -/
theorem C9_api_pos_unknown_witness :
    format_labels runRecord =
      List.replicate runRecord.definitions.length "Unknown" :=
  C9_api_pos_unknown envApiNoun "run" respNoun (by decide) (by decide)
    runRecord (by decide)

/-- C10: history deduplication is case-sensitive on the raw trimmed
input, not on the normalized lookup word: submitting `Cat` and then `cat`
through the search handler produces two distinct history entries, even
though both inputs resolve to the same lookup result for every
environment. -/
theorem C10_history_case_sensitive :
    (handle_search_input (handle_search_input ⟨[], none, false⟩ "Cat")
        "cat").history = ["cat", "Cat"] ∧
      ∀ env : Env, get_word_data env "Cat" = get_word_data env "cat" := by
  constructor
  · decide
  · intro env
    simp only [get_word_data]
    have h : normalizeWord "Cat" = normalizeWord "cat" := by decide
    rw [h]
